import Mathlib

/- Verification development for the relis pipeline (src/src/main.rs): a CLI
tool that extracts labelled numeric values from AMBER MD ".lis" report files,
aggregates them into one table, sorts by the "TIME(PS)" column, writes a CSV
and prints per-column mean / standard deviation.

Modelling conventions:
  * a file is a `List String` of its text lines;
  * the regex crate's Unicode-default classes `\d` (decimal digit, Nd) and
    `\s` (White_Space) are modelled by explicit code-point tables;
  * `f64` values are kept as exact decimal numbers (`Dec`: integer mantissa
    and power-of-ten exponent); rounding to binary floating point is not
    modelled, and statistics are computed exactly in `ℚ`;
  * the polars DataFrame operations used by the source (`with_column`,
    `vstack`, `select`, `sort_in_place`, `mean`, `std(ddof)`) are modelled
    by list functions following their documented semantics. -/

namespace Relis

instance instDecEqExcept {ε α : Type _} [DecidableEq ε] [DecidableEq α] :
    DecidableEq (Except ε α)
  | .ok a, .ok b => if h : a = b then .isTrue (by rw [h]) else .isFalse (by simp [h])
  | .ok _, .error _ => .isFalse (by simp)
  | .error _, .ok _ => .isFalse (by simp)
  | .error a, .error b => if h : a = b then .isTrue (by rw [h]) else .isFalse (by simp [h])

/-- Unicode White_Space code points: models the regex crate's `\s` class and
Rust `char::is_whitespace` (used by `str::trim`). -/
def isWs (c : Char) : Bool :=
  let n := c.toNat
  (0x09 ≤ n && n ≤ 0x0D) || n == 0x20 || n == 0x85 || n == 0xA0 || n == 0x1680 ||
  (0x2000 ≤ n && n ≤ 0x200A) || n == 0x2028 || n == 0x2029 || n == 0x202F ||
  n == 0x205F || n == 0x3000

/-- Unicode Nd (decimal digit) code points: models the regex crate's default
Unicode-aware `\d` class. -/
def isNd (c : Char) : Bool :=
  let n := c.toNat
  (0x30 ≤ n && n ≤ 0x39) ||
  (0x660 ≤ n && n ≤ 0x669) || (0x6F0 ≤ n && n ≤ 0x6F9) ||
  (0x7C0 ≤ n && n ≤ 0x7C9) || (0x966 ≤ n && n ≤ 0x96F) ||
  (0x9E6 ≤ n && n ≤ 0x9EF) || (0xA66 ≤ n && n ≤ 0xA6F) ||
  (0xAE6 ≤ n && n ≤ 0xAEF) || (0xB66 ≤ n && n ≤ 0xB6F) ||
  (0xBE6 ≤ n && n ≤ 0xBEF) || (0xC66 ≤ n && n ≤ 0xC6F) ||
  (0xCE6 ≤ n && n ≤ 0xCEF) || (0xD66 ≤ n && n ≤ 0xD6F) ||
  (0xDE6 ≤ n && n ≤ 0xDEF) || (0xE50 ≤ n && n ≤ 0xE59) ||
  (0xED0 ≤ n && n ≤ 0xED9) || (0xF20 ≤ n && n ≤ 0xF29) ||
  (0x1040 ≤ n && n ≤ 0x1049) || (0x1090 ≤ n && n ≤ 0x1099) ||
  (0x17E0 ≤ n && n ≤ 0x17E9) || (0x1810 ≤ n && n ≤ 0x1819) ||
  (0x1946 ≤ n && n ≤ 0x194F) || (0x19D0 ≤ n && n ≤ 0x19D9) ||
  (0x1A80 ≤ n && n ≤ 0x1A89) || (0x1A90 ≤ n && n ≤ 0x1A99) ||
  (0x1B50 ≤ n && n ≤ 0x1B59) || (0x1BB0 ≤ n && n ≤ 0x1BB9) ||
  (0x1C40 ≤ n && n ≤ 0x1C49) || (0x1C50 ≤ n && n ≤ 0x1C59) ||
  (0xA620 ≤ n && n ≤ 0xA629) || (0xA8D0 ≤ n && n ≤ 0xA8D9) ||
  (0xA900 ≤ n && n ≤ 0xA909) || (0xA9D0 ≤ n && n ≤ 0xA9D9) ||
  (0xA9F0 ≤ n && n ≤ 0xA9F9) || (0xAA50 ≤ n && n ≤ 0xAA59) ||
  (0xABF0 ≤ n && n ≤ 0xABF9) || (0xFF10 ≤ n && n ≤ 0xFF19) ||
  (0x104A0 ≤ n && n ≤ 0x104A9) || (0x10D30 ≤ n && n ≤ 0x10D39) ||
  (0x11066 ≤ n && n ≤ 0x1106F) || (0x110F0 ≤ n && n ≤ 0x110F9) ||
  (0x11136 ≤ n && n ≤ 0x1113F) || (0x111D0 ≤ n && n ≤ 0x111D9) ||
  (0x112F0 ≤ n && n ≤ 0x112F9) || (0x11450 ≤ n && n ≤ 0x11459) ||
  (0x114D0 ≤ n && n ≤ 0x114D9) || (0x11650 ≤ n && n ≤ 0x11659) ||
  (0x116C0 ≤ n && n ≤ 0x116C9) || (0x11730 ≤ n && n ≤ 0x11739) ||
  (0x118E0 ≤ n && n ≤ 0x118E9) || (0x11950 ≤ n && n ≤ 0x11959) ||
  (0x11C50 ≤ n && n ≤ 0x11C59) || (0x11D50 ≤ n && n ≤ 0x11D59) ||
  (0x11DA0 ≤ n && n ≤ 0x11DA9) || (0x11F50 ≤ n && n ≤ 0x11F59) ||
  (0x16A60 ≤ n && n ≤ 0x16A69) || (0x16AC0 ≤ n && n ≤ 0x16AC9) ||
  (0x16B50 ≤ n && n ≤ 0x16B59) || (0x1D7CE ≤ n && n ≤ 0x1D7FF) ||
  (0x1E140 ≤ n && n ≤ 0x1E149) || (0x1E2F0 ≤ n && n ≤ 0x1E2F9) ||
  (0x1E4F0 ≤ n && n ≤ 0x1E4F9) || (0x1E950 ≤ n && n ≤ 0x1E959) ||
  (0x1FBF0 ≤ n && n ≤ 0x1FBF9)

/-- Character class `[1\-4\s]` of the pattern (the literals '1', '-', '4' and
whitespace: leading noise of labels such as "1-4 EEL"). -/
def isC1 (c : Char) : Bool := c == '1' || c == '-' || c == '4' || isWs c

/-- Character class `[A-Za-z]` (ASCII letters only). -/
def isAsciiLetter (c : Char) : Bool :=
  (0x41 ≤ c.toNat && c.toNat ≤ 0x5A) || (0x61 ≤ c.toNat && c.toNat ≤ 0x7A)

/-- Character class `[\(A-Z)]` of the pattern: '(' , ')' and uppercase ASCII. -/
def isC2 (c : Char) : Bool := c == '(' || c == ')' || (0x41 ≤ c.toNat && c.toNat ≤ 0x5A)

/-- Does `pat` occur at the head of `s`? (building block for substring search). -/
def prefixAt : List Char → List Char → Bool
  | [], _ => true
  | _ :: _, [] => false
  | p :: ps, c :: cs => p == c && prefixAt ps cs

/-- Does `pat` occur anywhere in `s`? Models Rust `str::contains` with a
string pattern (UTF-8 byte search coincides with code-point search). -/
def hasSubstr (pat : List Char) : List Char → Bool
  | [] => prefixAt pat []
  | c :: t => prefixAt pat (c :: t) || hasSubstr pat t

/-- Rust `line.contains(pat)` on Lean strings. -/
def containsSub (s pat : String) : Bool := hasSubstr pat.data s.data

/-- Rust `str::trim`: strip White_Space from both ends. -/
def trimChars (l : List Char) : List Char :=
  ((l.dropWhile isWs).reverse.dropWhile isWs).reverse

/-- An exact decimal number `num / 10 ^ exp`: the model of an `f64` parsed
from the digit strings the pattern can capture (rounding not modelled). -/
structure Dec where
  num : Int
  exp : Nat
deriving DecidableEq

/-- The rational value of a `Dec`. -/
def Dec.toRat (d : Dec) : ℚ := (d.num : ℚ) / (10 : ℚ) ^ d.exp

/-- Value of a string of ASCII digits. -/
def digitsToNat (ds : List Char) : Nat := ds.foldl (fun a c => 10 * a + (c.toNat - 0x30)) 0

/-- Models `str::parse::<f64>()` (line 162 of main.rs) on the strings the
numeric capture group can produce: optional sign, ASCII-digit integer part,
optional '.' and ASCII-digit fraction. Rust float parsing accepts only ASCII
digits, so any other character — in particular a non-ASCII `\d` digit — makes
it fail. The value is kept exact as a `Dec`. -/
def parseF64 (s : List Char) : Option Dec :=
  let sgn : Int := if s.head? = some '-' then -1 else 1
  let s1 : List Char := if s.head? = some '-' ∨ s.head? = some '+' then s.tail else s
  let ip := s1.takeWhile Char.isDigit
  let r1 := s1.dropWhile Char.isDigit
  if r1 = [] then (if ip.isEmpty then none else some ⟨sgn * digitsToNat ip, 0⟩)
  else if r1.head? = some '.' then
    if (ip.isEmpty && r1.tail.isEmpty) || !r1.tail.all Char.isDigit then none
    else some ⟨sgn * (digitsToNat ip * 10 ^ r1.tail.length + digitsToNat r1.tail), r1.tail.length⟩
  else none

/-- One anchored application of the compiled pattern
`([1\-4\s]*[A-Za-z]+[\(A-Z)]*)\s+=\s+([-]?\d+[\.]?\d*)` (line 153 of main.rs)
at the start of `s`. All quantifiers are greedy and, for this pattern, the
greedy run of each piece is the only one that can succeed (adjacent pieces
with overlapping classes keep the same overall endpoint), so no backtracking
arises. Returns (group 1, group 2, remainder after the match). -/
def matchAt (s : List Char) : Option (List Char × List Char × List Char) :=
  let a1 := s.takeWhile isC1
  let r1 := s.dropWhile isC1
  let a2 := r1.takeWhile isAsciiLetter
  let r2 := r1.dropWhile isAsciiLetter
  if a2.isEmpty then none else
  let a3 := r2.takeWhile isC2
  let r3 := r2.dropWhile isC2
  let w1 := r3.takeWhile isWs
  let r4 := r3.dropWhile isWs
  if w1.isEmpty then none else
  if r4.head? = some '=' then
    let r5 := r4.tail
    let w2 := r5.takeWhile isWs
    let r6 := r5.dropWhile isWs
    if w2.isEmpty then none else
    let neg : List Char := if r6.head? = some '-' then ['-'] else []
    let r7 : List Char := if r6.head? = some '-' then r6.tail else r6
    let d1 := r7.takeWhile isNd
    let r8 := r7.dropWhile isNd
    if d1.isEmpty then none else
    if r8.head? = some '.' then
      some (a1 ++ a2 ++ a3, neg ++ d1 ++ '.' :: r8.tail.takeWhile isNd, r8.tail.dropWhile isNd)
    else some (a1 ++ a2 ++ a3, neg ++ d1, r8)
  else none

/-- Scan for successive non-overlapping leftmost matches, resuming after each
match (Regex::captures_iter). `fuel` bounds the recursion; `caps` supplies
enough fuel for it never to run out. -/
def capsGo : Nat → List Char → List (List Char × List Char)
  | 0, _ => []
  | _ + 1, [] => []
  | fuel + 1, c :: t =>
      match matchAt (c :: t) with
      | some (g1, g2, rem) => (g1, g2) :: capsGo fuel rem
      | none => capsGo fuel t

/-- All capture pairs of the pattern in one line (Regex::captures_iter). -/
def caps (s : List Char) : List (List Char × List Char) := capsGo (s.length + 1) s

/-- The `BTreeMap<String, Vec<f64>>` of the source, as an association list
kept strictly sorted by key (Rust string order = code-point lexicographic). -/
abbrev Data := List (String × List Dec)

/-- `data.entry(t).or_insert(Vec::new()).push(v)` (line 163 of main.rs):
append `v` to the entry of `k`, inserting the key at its sorted position if
absent. -/
def btInsert (k : String) (v : Dec) : Data → Data
  | [] => [(k, [v])]
  | (k2, vs) :: rest =>
      if k = k2 then (k2, vs ++ [v]) :: rest
      else if k.data < k2.data then (k, [v]) :: (k2, vs) :: rest
      else (k2, vs) :: btInsert k v rest

/-- The capture loop body of `extract_values` (lines 156-164 of main.rs) over
the captures of one line: skip every capture of a line containing "KE" or
"err", otherwise parse the value (propagating a parse failure) and insert
under the trimmed label. -/
def procCaps (line : String) : List (List Char × List Char) → Data → Except String Data
  | [], d => .ok d
  | (g1, g2) :: rest, d =>
      if containsSub line "KE" || containsSub line "err" then procCaps line rest d
      else
        match parseF64 g2 with
        | none => .error "ValueFormatError"
        | some v => procCaps line rest (btInsert (String.mk (trimChars g1)) v d)

/-- The line loop of `extract_values` (lines 155-165 of main.rs). -/
def extractGo : List String → Data → Except String Data
  | [], d => .ok d
  | l :: ls, d =>
      match procCaps l (caps l.data) d with
      | .error e => .error e
      | .ok d2 => extractGo ls d2

/-- `extract_values` (lines 149-167 of main.rs). -/
def extract_values (lines : List String) : Except String Data := extractGo lines []

/-- The scan loop of `read_lines_until_pattern` (lines 131-142 of main.rs):
seeing the start marker sets the flag (before any push), a line containing
the end marker stops the scan unconditionally without being pushed, and a
line is pushed whenever the flag is set. -/
def readGo (pstart pend : String) : List String → Bool → List String
  | [], _ => []
  | l :: rest, started =>
      let started2 := started || containsSub l pstart
      if containsSub l pend then []
      else if started2 then l :: readGo pstart pend rest started2
      else readGo pstart pend rest started2

/-- `read_lines_until_pattern` (lines 126-144 of main.rs), on the list of
lines of the file (I/O errors are out of scope of the claims). -/
def read_lines_until_pattern (lines : List String) (pstart pend : String) : List String :=
  readGo pstart pend lines false

/-- A polars DataFrame: named columns of (exact) f64 values. -/
structure Df where
  cols : List (String × List Dec)
deriving DecidableEq

/-- Column names, in order (DataFrame::get_column_names). -/
def Df.names (df : Df) : List String := df.cols.map Prod.fst

/-- Number of rows (DataFrame::height): the length of the first column. -/
def Df.height (df : Df) : Nat :=
  match df.cols with
  | [] => 0
  | c :: _ => c.2.length

/-- Well-formedness: every column has the frame's height (a polars
invariant maintained by all its constructors). -/
def Df.WF (df : Df) : Prop := ∀ c ∈ df.cols, c.2.length = df.height

/-- Models polars `DataFrame::with_column` (line 37 of main.rs): into an
empty frame any series may go; otherwise the length must equal the height;
a column of the same name is replaced in place. (The library's broadcast of
length-1 series is not modelled; the pipeline never exercises it.) -/
def withColumn (df : Df) (name : String) (vs : List Dec) : Except String Df :=
  if df.cols.isEmpty then .ok ⟨[(name, vs)]⟩
  else if vs.length = df.height then
    if df.names.contains name then
      .ok ⟨df.cols.map (fun c => if c.1 = name then (name, vs) else c)⟩
    else .ok ⟨df.cols ++ [(name, vs)]⟩
  else .error "ShapeMisMatch"

/-- Lines 33-38 of main.rs: build one file's frame from its key/values map,
one `with_column` per entry in map (key-sorted) order. -/
def buildDf (d : Data) : Except String Df :=
  d.foldlM (fun df c => withColumn df c.1 c.2) ⟨[]⟩

/-- Models polars `DataFrame::vstack` (line 39 of main.rs): with equal widths
the schemas (names) must agree and columns are appended pairwise; a width-0
left frame becomes the right frame; any other width mismatch is an error. -/
def vstack (df other : Df) : Except String Df :=
  if df.cols.length = other.cols.length then
    if df.names = other.names then
      .ok ⟨List.zipWith (fun c1 c2 => (c1.1, c1.2 ++ c2.2)) df.cols other.cols⟩
    else .error "SchemaMisMatch"
  else if df.cols.length = 0 then .ok other
  else .error "ShapeMisMatch"

/-- The zero value used to pad (never reached on well-formed frames). -/
def dec0 : Dec := ⟨0, 0⟩

/-- Row `i` of a frame. -/
def rowAt (df : Df) (i : Nat) : List Dec := df.cols.map (fun c => c.2.getD i dec0)

/-- The rows of a frame, in order. -/
def rowsOf (df : Df) : List (List Dec) := (List.range df.height).map (rowAt df)

/-- Columns `j, j+1, …` named `ns`, gathered from a row list. -/
def colsFrom (rows : List (List Dec)) : List String → Nat → List (String × List Dec)
  | [], _ => []
  | n :: ns, j => (n, rows.map (fun r => r.getD j dec0)) :: colsFrom rows ns (j + 1)

/-- Rebuild a frame from named rows. -/
def ofRows (ns : List String) (rows : List (List Dec)) : Df :=
  ⟨colsFrom rows ns 0⟩

/-- First column with the given name (Series lookup by name). -/
def lookupCol (cols : List (String × List Dec)) (n : String) : Option (List Dec) :=
  match cols.find? (fun c => c.1 == n) with
  | some c => some c.2
  | none => none

/-- Models polars `DataFrame::select` (line 52 of main.rs): the named columns,
in the requested order; an absent name is an error. -/
def selectCols (cols : List (String × List Dec)) : List String → Option (List (String × List Dec))
  | [] => some []
  | n :: ns =>
      match lookupCol cols n, selectCols cols ns with
      | some vs, some rest => some ((n, vs) :: rest)
      | _, _ => none

/-- Row comparison by the numeric value at index `k`. -/
def rowLeAt (k : Nat) (r s : List Dec) : Prop :=
  (r.getD k dec0).toRat ≤ (s.getD k dec0).toRat

instance rowLeAtDecidable (k : Nat) : DecidableRel (rowLeAt k) :=
  fun r s => inferInstanceAs (Decidable ((r.getD k dec0).toRat ≤ (s.getD k dec0).toRat))

/-- Models `df.sort_in_place(["TIME(PS)"], false)` (line 53 of main.rs):
ascending (reverse = false) sort of the rows by the named column. Modelled
from the spec: the sort is taken to be stable (ties keep their prior relative
order), as §4.4 of the spec states; the polars source is not part of this
repository and its documentation does not pin stability down. -/
def sortByName (df : Df) (n : String) : Except String Df :=
  match df.names.findIdx? (fun x => x == n) with
  | none => .error "ColumnNotFound"
  | some k => .ok (ofRows df.names (List.insertionSort (rowLeAt k) (rowsOf df)))

/-- Lines 46-54 of main.rs: if a column named "TIME(PS)" exists (first
position found), move it to the front keeping the other columns' relative
order, select in that order and sort ascending by it; otherwise leave the
frame unchanged. -/
def reorderSort (df : Df) : Except String Df :=
  match df.names.findIdx? (fun x => x == "TIME(PS)") with
  | none => .ok df
  | some pos =>
      match selectCols df.cols ("TIME(PS)" :: df.names.eraseIdx pos) with
      | none => .error "ColumnNotFound"
      | some cols2 => sortByName ⟨cols2⟩ "TIME(PS)"

/-- Result of a successful run: either the "No data found." early exit with
code 0 and no CSV file, or a written LISFILES_SUMMARY.CSV holding the final
frame. An `Except.error` models the propagated error / non-zero exit. -/
inductive Outcome where
  | noData : Outcome
  | written : Df → Outcome
deriving DecidableEq

/-- The body of the per-file loop of `extract_all_values` (lines 30-39 of
main.rs): extract the marker-bounded region, parse it, build the file's frame
and vstack it onto the accumulator; every `?` propagates the first error. -/
def stepFile (df : Df) (f : List String) : Except String Df :=
  match extract_values (read_lines_until_pattern f "RESULTS" "A V E R A G E") with
  | .error e => .error e
  | .ok data =>
      match buildDf data with
      | .error e => .error e
      | .ok temp => vstack df temp

/-- The per-file loop of `extract_all_values` (lines 29-40 of main.rs). -/
def stackFiles : List (List String) → Df → Except String Df
  | [], df => .ok df
  | f :: fs, df =>
      match stepFile df f with
      | .error e => .error e
      | .ok df2 => stackFiles fs df2

/-- `extract_all_values` (lines 24-68 of main.rs) on the contents of the
matched files, in iteration order: accumulate all frames; an empty result
(DataFrame::is_empty, height 0) exits with "No data found.", code 0, before
the CSV file is created; otherwise reorder/sort and write the CSV. -/
def extract_all_values (files : List (List String)) : Except String Outcome :=
  match stackFiles files ⟨[]⟩ with
  | .error e => .error e
  | .ok df =>
      if df.height = 0 then .ok .noData
      else
        match reorderSort df with
        | .error e => .error e
        | .ok df2 => .ok (.written df2)

/-- Arithmetic mean of a column (polars DataFrame::mean, line 60 of main.rs),
exact in ℚ. -/
def colMean (xs : List ℚ) : ℚ := xs.sum / xs.length

/-- Variance with the polars/numpy `ddof` convention (denominator
`n - ddof`): `df.std(ddof)` prints the square root of this. The call site
(line 61 of main.rs) passes `ddof = 0`. -/
def colVar (xs : List ℚ) (ddof : Nat) : ℚ :=
  ((xs.map (fun x => (x - colMean xs) ^ 2)).sum) / ((xs.length - ddof : ℕ) : ℚ)

/-- The per-column summary printed by lines 59-67 of main.rs: column name,
mean, and the variance whose square root is the printed standard deviation
(`df.std(0)`). -/
def summaryStats (df : Df) : List (String × ℚ × ℚ) :=
  df.cols.map (fun c => (c.1, colMean (c.2.map Dec.toRat), colVar (c.2.map Dec.toRat) 0))

/-- The frame after the column reordering of lines 48-52 but before the sort
of line 53 (used to state stability of the sort relative to the prior row
order). -/
def selectTime (df : Df) : Df :=
  match df.names.findIdx? (fun x => x == "TIME(PS)") with
  | none => df
  | some pos =>
      match selectCols df.cols ("TIME(PS)" :: df.names.eraseIdx pos) with
      | none => df
      | some cols2 => ⟨cols2⟩

lemma readGo_skip (pstart pend : String) (pre rest : List String)
    (h : ∀ l ∈ pre, containsSub l pstart = false ∧ containsSub l pend = false) :
    readGo pstart pend (pre ++ rest) false = readGo pstart pend rest false := by
  induction pre with
  | nil => rfl
  | cons a t ih =>
      have ha := h a (by simp)
      simpa [readGo, ha.1, ha.2] using ih (fun l hl => h l (by simp [hl]))

lemma readGo_until_end (pstart pend : String) (mid post : List String) (e : String)
    (hmid : ∀ l ∈ mid, containsSub l pend = false) (he : containsSub e pend = true) :
    readGo pstart pend (mid ++ e :: post) true = mid := by
  induction mid with
  | nil => simp [readGo, he]
  | cons a t ih =>
      have ha := hmid a (by simp)
      simpa [readGo, ha] using ih (fun l hl => hmid l (by simp [hl]))

lemma readGo_noend (pstart pend : String) (post : List String)
    (h : ∀ l ∈ post, containsSub l pend = false) :
    readGo pstart pend post true = post := by
  induction post with
  | nil => rfl
  | cons a t ih =>
      have ha := h a (by simp)
      simpa [readGo, ha] using ih (fun l hl => h l (by simp [hl]))

lemma readGo_nostart (pstart pend : String) (lines : List String)
    (h : ∀ l ∈ lines, containsSub l pstart = false) :
    readGo pstart pend lines false = [] := by
  induction lines with
  | nil => rfl
  | cons a t ih =>
      have ha := h a (by simp)
      by_cases he : containsSub a pend = true
      · simp [readGo, ha, he]
      · simp only [Bool.not_eq_true] at he
        simpa [readGo, ha, he] using ih (fun l hl => h l (by simp [hl]))

/-- Claim C1 (corrected): on a file whose region markers both occur, the
extractor keeps the start-marker line itself (the claim's "strictly between"
fails); it returns the start-marker line followed by the lines strictly
between the markers, excludes the end-marker line, and drops everything after
it. -/
theorem claim_C1_thm (pstart pend : String) (pre mid post : List String) (s e : String)
    (hpre : ∀ l ∈ pre, containsSub l pstart = false ∧ containsSub l pend = false)
    (hs : containsSub s pstart = true) (hs2 : containsSub s pend = false)
    (hmid : ∀ l ∈ mid, containsSub l pend = false)
    (he : containsSub e pend = true) :
    read_lines_until_pattern (pre ++ s :: (mid ++ e :: post)) pstart pend = s :: mid := by
  unfold read_lines_until_pattern
  rw [readGo_skip pstart pend pre _ hpre]
  simpa [readGo, hs, hs2] using readGo_until_end pstart pend mid post e hmid he

/-- Claim C1 counterexample: the start-marker line "RESULTS" is part of the
output, so the output is not the lines strictly between the markers. -/
theorem claim_C1_counterexample :
    read_lines_until_pattern ["RESULTS", "x = 1", "A V E R A G E", "tail"]
        "RESULTS" "A V E R A G E" = ["RESULTS", "x = 1"] ∧
    (["RESULTS", "x = 1"] : List String) ≠ ["x = 1"] := by
  constructor
  · rfl
  · decide

theorem claim_C1_witness :
    containsSub "RESULTS" "RESULTS" = true ∧
    read_lines_until_pattern (["hdr"] ++ "RESULTS" :: (["x = 1"] ++ "A V E R A G E" :: ["tail"]))
        "RESULTS" "A V E R A G E" = "RESULTS" :: ["x = 1"] :=
  ⟨by decide,
   claim_C1_thm "RESULTS" "A V E R A G E" ["hdr"] ["x = 1"] ["tail"] "RESULTS" "A V E R A G E"
     (by decide) (by decide) (by decide) (by decide) (by decide)⟩

/-- Claim C6 (corrected): (1) if no line contains the start marker the result
is empty; (2) if the end marker never occurs, the scan terminates at
end-of-input and returns every line from the first start-marker line
(inclusive) onward; (3) but if a line containing the end marker occurs before
every line containing the start marker, the scan stops at that line (not at
end-of-input) and the result is empty, not the lines from the start marker
onward. -/
theorem claim_C6_thm :
    (∀ (pstart pend : String) (lines : List String),
        (∀ l ∈ lines, containsSub l pstart = false) →
        read_lines_until_pattern lines pstart pend = []) ∧
    (∀ (pstart pend : String) (pre post : List String) (s : String),
        (∀ l ∈ pre, containsSub l pstart = false ∧ containsSub l pend = false) →
        containsSub s pstart = true →
        (∀ l ∈ s :: post, containsSub l pend = false) →
        read_lines_until_pattern (pre ++ s :: post) pstart pend = s :: post) ∧
    (∀ (pstart pend : String) (pre post : List String) (e : String),
        (∀ l ∈ pre, containsSub l pstart = false ∧ containsSub l pend = false) →
        containsSub e pend = true →
        read_lines_until_pattern (pre ++ e :: post) pstart pend = []) := by
  refine ⟨?_, ?_, ?_⟩
  · intro pstart pend lines h
    exact readGo_nostart pstart pend lines h
  · intro pstart pend pre post s hpre hs hnoend
    unfold read_lines_until_pattern
    rw [readGo_skip pstart pend pre _ hpre]
    have hs2 := hnoend s (by simp)
    simpa [readGo, hs, hs2] using
      readGo_noend pstart pend post (fun l hl => hnoend l (by simp [hl]))
  · intro pstart pend pre post e hpre he
    unfold read_lines_until_pattern
    rw [readGo_skip pstart pend pre _ hpre]
    simp [readGo, he]

/-- Claim C6 counterexample: with the end marker strictly before the start
marker the scan stops at the end-marker line and returns nothing, instead of
terminating at end-of-input with the lines collected from the start marker
onward (the line "x = 1" is lost). -/
theorem claim_C6_counterexample :
    read_lines_until_pattern ["A V E R A G E", "RESULTS", "x = 1"]
        "RESULTS" "A V E R A G E" = [] ∧
    ("x = 1" : String) ∉
      read_lines_until_pattern ["A V E R A G E", "RESULTS", "x = 1"] "RESULTS" "A V E R A G E" := by
  constructor
  · rfl
  · intro h
    simp only [show read_lines_until_pattern ["A V E R A G E", "RESULTS", "x = 1"]
        "RESULTS" "A V E R A G E" = [] from rfl] at h
    exact (List.not_mem_nil _) h

/-- Claim C2 counterexample: for the column X with values 0 and 2 the printed
standard deviation is sqrt of `colVar · 0` = sqrt 1 (the `df.std(0)` call uses
ddof = 0, i.e. the population convention), while the sample (n−1) standard
deviation the claim asserts is sqrt of `colVar · 1` = sqrt 2, and
sqrt 1 ≠ sqrt 2. -/
theorem claim_C2_counterexample :
    summaryStats ⟨[("X", [⟨0, 0⟩, ⟨2, 0⟩])]⟩ = [("X", 1, 1)] ∧
    colVar ([(⟨0, 0⟩ : Dec), ⟨2, 0⟩].map Dec.toRat) 1 = 2 ∧
    Real.sqrt 1 ≠ Real.sqrt 2 := by
  refine ⟨?_, ?_, ?_⟩
  · simp [summaryStats, colMean, colVar, Dec.toRat]
    norm_num
  · simp [colVar, colMean, Dec.toRat]
    norm_num
  · exact ne_of_lt (Real.sqrt_lt_sqrt (by norm_num) (by norm_num))

/-- Claim C2 (corrected): the summary prints, per column, the arithmetic mean
and the square root of the ddof = 0 (population, denominator n) variance —
not the sample (n−1) one: `colVar xs 0` is the mean of the squared deviations,
and it relates to the sample variance by n·var₀ = (n−1)·var₁. -/
theorem claim_C2_thm (df : Df) (name : String) (vs : List Dec)
    (hmem : (name, vs) ∈ df.cols) (hlen : 2 ≤ vs.length) :
    (name, colMean (vs.map Dec.toRat), colVar (vs.map Dec.toRat) 0) ∈ summaryStats df ∧
    colVar (vs.map Dec.toRat) 0
      = colMean ((vs.map Dec.toRat).map (fun x => (x - colMean (vs.map Dec.toRat)) ^ 2)) ∧
    ((vs.map Dec.toRat).length : ℚ) * colVar (vs.map Dec.toRat) 0
      = (((vs.map Dec.toRat).length - 1 : ℕ) : ℚ) * colVar (vs.map Dec.toRat) 1 := by
  have hxs : (vs.map Dec.toRat).length = vs.length := List.length_map _ _
  refine ⟨List.mem_map_of_mem _ hmem, ?_, ?_⟩
  · simp [colVar, colMean]
  · have h1 : ((vs.map Dec.toRat).length : ℚ) ≠ 0 := by
      rw [hxs]; exact Nat.cast_ne_zero.mpr (by omega)
    have h2 : (((vs.map Dec.toRat).length - 1 : ℕ) : ℚ) ≠ 0 := by
      rw [hxs]; exact Nat.cast_ne_zero.mpr (by omega)
    simp only [colVar, Nat.sub_zero]
    rw [mul_comm, mul_comm ((((vs.map Dec.toRat).length - 1 : ℕ) : ℚ))]
    rw [div_mul_cancel₀ _ h1, div_mul_cancel₀ _ h2]

theorem claim_C2_witness :
    (("Y", [(⟨1, 0⟩ : Dec), ⟨3, 0⟩]) ∈ (Df.mk [("Y", [⟨1, 0⟩, ⟨3, 0⟩])]).cols) ∧
    ("Y", colMean ([(⟨1, 0⟩ : Dec), ⟨3, 0⟩].map Dec.toRat),
        colVar ([(⟨1, 0⟩ : Dec), ⟨3, 0⟩].map Dec.toRat) 0)
      ∈ summaryStats (Df.mk [("Y", [⟨1, 0⟩, ⟨3, 0⟩])]) :=
  ⟨by decide,
   (claim_C2_thm (Df.mk [("Y", [⟨1, 0⟩, ⟨3, 0⟩])]) "Y" [⟨1, 0⟩, ⟨3, 0⟩]
      (by decide) (by decide)).1⟩

lemma procCaps_skip (line : String)
    (h : containsSub line "KE" = true ∨ containsSub line "err" = true) :
    ∀ (cs : List (List Char × List Char)) (d : Data), procCaps line cs d = .ok d := by
  intro cs
  induction cs with
  | nil => intro d; rfl
  | cons c rest ih =>
      intro d
      obtain ⟨g1, g2⟩ := c
      rcases h with h | h <;> simp [procCaps, h, ih d]

lemma extractGo_skip_line (line : String)
    (h : containsSub line "KE" = true ∨ containsSub line "err" = true) :
    ∀ (xs ys : List String) (d : Data),
      extractGo (xs ++ line :: ys) d = extractGo (xs ++ ys) d := by
  intro xs
  induction xs with
  | nil =>
      intro ys d
      simp [extractGo, procCaps_skip line h (caps line.data) d]
  | cons a t ih =>
      intro ys d
      simp only [List.cons_append, extractGo]
      cases hpc : procCaps a (caps a.data) d with
      | error e => rfl
      | ok d2 => exact ih ys d2

/-- Claim C3 (confirmed): a line containing "KE" or "err" contributes no
key/value pairs: its capture loop returns the data map unchanged, and
deleting such a line from the input leaves `extract_values` unchanged. -/
theorem claim_C3_thm (line : String) (d : Data) (xs ys : List String)
    (h : containsSub line "KE" = true ∨ containsSub line "err" = true) :
    procCaps line (caps line.data) d = .ok d ∧
    extract_values (xs ++ line :: ys) = extract_values (xs ++ ys) :=
  ⟨procCaps_skip line h (caps line.data) d, extractGo_skip_line line h xs ys []⟩

theorem claim_C3_witness :
    containsSub "EKE = 5.0 TEMP(K) = 300.0" "KE" = true ∧
    procCaps "EKE = 5.0 TEMP(K) = 300.0" (caps "EKE = 5.0 TEMP(K) = 300.0".data) [] = .ok [] ∧
    extract_values ([] ++ "EKE = 5.0 TEMP(K) = 300.0" :: []) = extract_values ([] ++ []) :=
  ⟨by decide,
   (claim_C3_thm "EKE = 5.0 TEMP(K) = 300.0" [] [] [] (Or.inl (by decide))).1,
   (claim_C3_thm "EKE = 5.0 TEMP(K) = 300.0" [] [] [] (Or.inl (by decide))).2⟩

/-- Claim C4 (confirmed, Scenario A): one file "RESULTS" / "TEMP(K) = 300.5"
/ "TIME(PS) = 1.0" / "A V E R A G E" yields the table with TIME(PS) first,
then TEMP(K), and one row whose TIME(PS) value is 1.0 and TEMP(K) value is
300.5. -/
theorem claim_C4_thm :
    extract_all_values [["RESULTS", "TEMP(K) = 300.5", "TIME(PS) = 1.0", "A V E R A G E"]]
      = .ok (.written ⟨[("TIME(PS)", [⟨10, 1⟩]), ("TEMP(K)", [⟨3005, 1⟩])]⟩) ∧
    Dec.toRat ⟨10, 1⟩ = 1 ∧ Dec.toRat ⟨3005, 1⟩ = 300.5 := by
  refine ⟨rfl, ?_, ?_⟩ <;> norm_num [Dec.toRat]

lemma stackFiles_all_empty :
    ∀ fs : List (List String),
      (∀ f ∈ fs, extract_values (read_lines_until_pattern f "RESULTS" "A V E R A G E") = .ok []) →
      stackFiles fs ⟨[]⟩ = .ok ⟨[]⟩ := by
  intro fs
  induction fs with
  | nil => intro _; rfl
  | cons a t ih =>
      intro hall
      have ha := hall a (by simp)
      have ht := ih (fun f hf => hall f (by simp [hf]))
      simp [stackFiles, stepFile, ha]
      exact ht

/-- Claim C8 (confirmed): with no matched files, or with every matched file
yielding zero extracted fields, the run ends in the "No data found." outcome:
exit code 0 and no CSV file written (the early exit precedes the CSV
creation). -/
theorem claim_C8_thm (files : List (List String))
    (h : files = [] ∨
      ∀ f ∈ files, extract_values (read_lines_until_pattern f "RESULTS" "A V E R A G E") = .ok []) :
    extract_all_values files = .ok .noData := by
  have key : stackFiles files ⟨[]⟩ = .ok ⟨[]⟩ := by
    rcases h with h | h
    · subst h; rfl
    · exact stackFiles_all_empty files h
  simp [extract_all_values, key, Df.height]

theorem claim_C8_witness :
    (∀ f ∈ [["RESULTS", "EKE = 1", "A V E R A G E"]],
      extract_values (read_lines_until_pattern f "RESULTS" "A V E R A G E") = .ok []) ∧
    extract_all_values [["RESULTS", "EKE = 1", "A V E R A G E"]] = .ok .noData :=
  ⟨by decide, claim_C8_thm [["RESULTS", "EKE = 1", "A V E R A G E"]] (Or.inr (by decide))⟩

lemma procCaps_err_msg (line : String) :
    ∀ (cs : List (List Char × List Char)) (d : Data) (e : String),
      procCaps line cs d = .error e → e = "ValueFormatError" := by
  intro cs
  induction cs with
  | nil => intro d e h; simp [procCaps] at h
  | cons c rest ih =>
      intro d e h
      obtain ⟨g1, g2⟩ := c
      by_cases hc : (containsSub line "KE" || containsSub line "err") = true
      · simp only [procCaps, if_pos hc] at h
        exact ih d e h
      · cases hp : parseF64 g2 with
        | none =>
            simp only [procCaps, if_neg hc, hp] at h
            injection h with h2
            exact h2.symm
        | some v =>
            simp only [procCaps, if_neg hc, hp] at h
            exact ih _ e h

lemma procCaps_err_of_bad (line : String) (g1 g2 : List Char)
    (hparse : parseF64 g2 = none)
    (hKE : containsSub line "KE" = false) (herr : containsSub line "err" = false) :
    ∀ (cs : List (List Char × List Char)), (g1, g2) ∈ cs →
      ∀ d, procCaps line cs d = .error "ValueFormatError" := by
  have hcond : ¬((containsSub line "KE" || containsSub line "err") = true) := by
    simp [hKE, herr]
  intro cs
  induction cs with
  | nil => intro h; cases h
  | cons c rest ih =>
      intro hmem d
      obtain ⟨a, b⟩ := c
      rcases List.mem_cons.mp hmem with heq | hmem2
      · injection heq with h1 h2
        subst h1
        subst h2
        simp only [procCaps, if_neg hcond, hparse]
      · simp only [procCaps, if_neg hcond]
        cases hp : parseF64 b with
        | none => rfl
        | some v => exact ih hmem2 _

lemma extractGo_err_of_bad (line : String) (g1 g2 : List Char)
    (hmem : (g1, g2) ∈ caps line.data) (hparse : parseF64 g2 = none)
    (hKE : containsSub line "KE" = false) (herr : containsSub line "err" = false) :
    ∀ (lines : List String), line ∈ lines →
      ∀ d, extractGo lines d = .error "ValueFormatError" := by
  intro lines
  induction lines with
  | nil => intro h; cases h
  | cons a t ih =>
      intro hline d
      rcases List.mem_cons.mp hline with heq | hmem2
      · subst heq
        have hbad := procCaps_err_of_bad line g1 g2 hparse hKE herr (caps line.data) hmem d
        simp [extractGo, hbad]
      · simp only [extractGo]
        cases hpc : procCaps a (caps a.data) d with
        | error e => rw [procCaps_err_msg a (caps a.data) d e hpc]
        | ok d2 => exact ih hmem2 d2

lemma stackFiles_err (f : List String) (msg : String)
    (hf : extract_values (read_lines_until_pattern f "RESULTS" "A V E R A G E") = .error msg) :
    ∀ (files : List (List String)), f ∈ files →
      ∀ df, ∃ e, stackFiles files df = .error e := by
  intro files
  induction files with
  | nil => intro h; cases h
  | cons a t ih =>
      intro hmem df
      rcases List.mem_cons.mp hmem with heq | hmem2
      · subst heq
        exact ⟨msg, by simp [stackFiles, stepFile, hf]⟩
      · cases hs : stepFile df a with
        | error e => exact ⟨e, by simp [stackFiles, hs]⟩
        | ok df2 =>
            obtain ⟨e, he⟩ := ih hmem2 df2
            exact ⟨e, by simp [stackFiles, hs, he]⟩

/-- Claim C7 (confirmed): whenever a line has a pattern match whose numeric
capture does not parse as a float (possible only with non-ASCII digits, see
C10; the spec's "VAL = 1.2.3" example instead captures "1.2", which parses),
and the line is not excluded by the KE/err filter, the whole extraction fails
with ValueFormatError, and any pipeline run containing such a file aborts
with an error (non-zero exit), rather than silently dropping the pair. -/
theorem claim_C7_thm (lines : List String) (line : String) (g1 g2 : List Char)
    (hline : line ∈ lines) (hmem : (g1, g2) ∈ caps line.data) (hparse : parseF64 g2 = none)
    (hKE : containsSub line "KE" = false) (herr : containsSub line "err" = false) :
    extract_values lines = .error "ValueFormatError" ∧
    ∀ (files : List (List String)) (f : List String), f ∈ files →
      read_lines_until_pattern f "RESULTS" "A V E R A G E" = lines →
      ∃ e, extract_all_values files = .error e := by
  have h1 : extract_values lines = .error "ValueFormatError" :=
    extractGo_err_of_bad line g1 g2 hmem hparse hKE herr lines hline []
  refine ⟨h1, ?_⟩
  intro files f hf hreg
  obtain ⟨e, he⟩ :=
    stackFiles_err f "ValueFormatError" (by rw [hreg]; exact h1) files hf ⟨[]⟩
  exact ⟨e, by simp [extract_all_values, he]⟩

theorem claim_C7_witness :
    parseF64 ['٣'] = none ∧
    extract_values ["RESULTS", "X = ٣"] = .error "ValueFormatError" ∧
    ∃ e, extract_all_values [["RESULTS", "X = ٣", "A V E R A G E"]] = .error e :=
  ⟨rfl,
   (claim_C7_thm ["RESULTS", "X = ٣"] "X = ٣" ['X'] ['٣'] (by decide) (by decide) rfl
      (by decide) (by decide)).1,
   (claim_C7_thm ["RESULTS", "X = ٣"] "X = ٣" ['X'] ['٣'] (by decide) (by decide) rfl
      (by decide) (by decide)).2
     [["RESULTS", "X = ٣", "A V E R A G E"]] ["RESULTS", "X = ٣", "A V E R A G E"]
     (by decide) rfl⟩

theorem claim_C6_witness :
    read_lines_until_pattern ["no marker here"] "RESULTS" "A V E R A G E" = [] ∧
    read_lines_until_pattern (["hdr"] ++ "RESULTS" :: ["x = 1"]) "RESULTS" "A V E R A G E"
      = "RESULTS" :: ["x = 1"] ∧
    read_lines_until_pattern (["hdr"] ++ "A V E R A G E" :: ["RESULTS", "x = 1"])
        "RESULTS" "A V E R A G E" = [] :=
  ⟨claim_C6_thm.1 "RESULTS" "A V E R A G E" ["no marker here"] (by decide),
   claim_C6_thm.2.1 "RESULTS" "A V E R A G E" ["hdr"] ["x = 1"] "RESULTS"
     (by decide) (by decide) (by decide),
   claim_C6_thm.2.2 "RESULTS" "A V E R A G E" ["hdr"] ["RESULTS", "x = 1"] "A V E R A G E"
     (by decide) (by decide)⟩



lemma shape_of_nodot (neg d1 : List Char) (hneg : neg = [] ∨ neg = ['-'])
    (hd1 : d1 ≠ []) (hnd : ∀ c ∈ d1, isNd c = true) :
    ∃ n d dot, neg ++ d1 = n ++ d ++ dot ∧ (n = [] ∨ n = ['-']) ∧ d ≠ [] ∧
      (∀ c ∈ d, isNd c = true) ∧
      (dot = [] ∨ ∃ d2, dot = '.' :: d2 ∧ ∀ c ∈ d2, isNd c = true) :=
  ⟨neg, d1, [], by simp, hneg, hd1, hnd, Or.inl rfl⟩

lemma shape_of_dot (neg d1 d2 : List Char) (hneg : neg = [] ∨ neg = ['-'])
    (hd1 : d1 ≠ []) (hnd : ∀ c ∈ d1, isNd c = true) (hnd2 : ∀ c ∈ d2, isNd c = true) :
    ∃ n d dot, neg ++ d1 ++ '.' :: d2 = n ++ d ++ dot ∧ (n = [] ∨ n = ['-']) ∧ d ≠ [] ∧
      (∀ c ∈ d, isNd c = true) ∧
      (dot = [] ∨ ∃ d2b, dot = '.' :: d2b ∧ ∀ c ∈ d2b, isNd c = true) :=
  ⟨neg, d1, '.' :: d2, rfl, hneg, hd1, hnd, Or.inr ⟨d2, rfl, hnd2⟩⟩

lemma matchAt_shape (s g1 g2 rem : List Char) (h : matchAt s = some (g1, g2, rem)) :
    ∃ neg d1 dot, g2 = neg ++ d1 ++ dot ∧ (neg = [] ∨ neg = ['-']) ∧ d1 ≠ [] ∧
      (∀ c ∈ d1, isNd c = true) ∧
      (dot = [] ∨ ∃ d2, dot = '.' :: d2 ∧ ∀ c ∈ d2, isNd c = true) := by
  unfold matchAt at h
  dsimp only at h
  split_ifs at h with h1 h2 h3 h4 h5 h6 h7

  all_goals simp only [Option.some.injEq, Prod.mk.injEq] at h
  all_goals obtain ⟨hg1, hg2, hrem⟩ := h
  all_goals subst hg2
  all_goals
    first
      | exact shape_of_dot _ _ _ (Or.inl rfl) (by intro hcon; simp_all)
          (fun c hc => List.mem_takeWhile_imp hc) (fun c hc => List.mem_takeWhile_imp hc)
      | exact shape_of_dot _ _ _ (Or.inr rfl) (by intro hcon; simp_all)
          (fun c hc => List.mem_takeWhile_imp hc) (fun c hc => List.mem_takeWhile_imp hc)
      | exact shape_of_nodot _ _ (Or.inl rfl) (by intro hcon; simp_all)
          (fun c hc => List.mem_takeWhile_imp hc)
      | exact shape_of_nodot _ _ (Or.inr rfl) (by intro hcon; simp_all)
          (fun c hc => List.mem_takeWhile_imp hc)



lemma takeWhile_of_all2 {α} (p : α → Bool) :
    ∀ l : List α, (∀ c ∈ l, p c = true) → (l.takeWhile p = l ∧ l.dropWhile p = []) := by
  intro l
  induction l with
  | nil => intro _; exact ⟨rfl, rfl⟩
  | cons a t ih =>
      intro h
      have ha := h a (by simp)
      have ht := ih (fun c hc => h c (by simp [hc]))
      simp [List.takeWhile_cons, List.dropWhile_cons, ha, ht.1, ht.2]

lemma takeWhile_append_of_all {α} (p : α → Bool) (l2 : List α) :
    ∀ l1 : List α, (∀ c ∈ l1, p c = true) →
      ((l1 ++ l2).takeWhile p = l1 ++ l2.takeWhile p ∧ (l1 ++ l2).dropWhile p = l2.dropWhile p) := by
  intro l1
  induction l1 with
  | nil => intro _; exact ⟨rfl, rfl⟩
  | cons a t ih =>
      intro h
      have ha := h a (by simp)
      have ht := ih (fun c hc => h c (by simp [hc]))
      simp [List.takeWhile_cons, List.dropWhile_cons, ha, ht.1, ht.2]

lemma isDigit_ne (c : Char) (h : c.isDigit = true) : c ≠ '-' ∧ c ≠ '+' ∧ c ≠ '.' := by
  refine ⟨?_, ?_, ?_⟩ <;> intro hc <;> subst hc <;> exact absurd h (by decide)

lemma parseF64_isSome (neg d1 dot : List Char)
    (hneg : neg = [] ∨ neg = ['-']) (hd1 : d1 ≠ []) (hd1d : ∀ c ∈ d1, c.isDigit = true)
    (hdot : dot = [] ∨ ∃ d2, dot = '.' :: d2 ∧ ∀ c ∈ d2, c.isDigit = true) :
    (parseF64 (neg ++ d1 ++ dot)).isSome = true := by
  obtain ⟨c, t, rfl⟩ : ∃ c t, d1 = c :: t := by
    cases d1 with
    | nil => exact absurd rfl hd1
    | cons a b => exact ⟨a, b, rfl⟩
  have hca := hd1d c (by simp)
  have hcm := (isDigit_ne c hca).1
  have hcp := (isDigit_ne c hca).2.1
  rcases hdot with rfl | ⟨d2, rfl, hd2⟩ <;> rcases hneg with rfl | rfl
  · have htw := takeWhile_of_all2 Char.isDigit (c :: t) hd1d
    simp [parseF64, htw.1, htw.2, hcm, hcp]
  · have htw := takeWhile_of_all2 Char.isDigit (c :: t) hd1d
    simp [parseF64, htw.1, htw.2]
  · have htw := takeWhile_append_of_all Char.isDigit ('.' :: d2) (c :: t) hd1d
    have hall : d2.all Char.isDigit = true := by simpa using hd2
    simp only [List.cons_append] at htw
    simp [parseF64, htw.1, htw.2, hcm, hcp, hall]
  · have htw := takeWhile_append_of_all Char.isDigit ('.' :: d2) (c :: t) hd1d
    have hall : d2.all Char.isDigit = true := by simpa using hd2
    simp only [List.cons_append] at htw
    simp [parseF64, htw.1, htw.2, hall]

lemma caps_mem_matchAt :
    ∀ (fuel : Nat) (s g1 g2 : List Char), (g1, g2) ∈ capsGo fuel s →
      ∃ s2 rem, matchAt s2 = some (g1, g2, rem) := by
  intro fuel
  induction fuel with
  | zero => intro s g1 g2 h; simp [capsGo] at h
  | succ n ih =>
      intro s g1 g2 h
      cases s with
      | nil => simp [capsGo] at h
      | cons c t =>
          simp only [capsGo] at h
          cases hm : matchAt (c :: t) with
          | some trip =>
              obtain ⟨ga, rest⟩ := trip
              obtain ⟨gb, rem⟩ := rest
              rw [hm] at h
              rcases List.mem_cons.mp h with heq | h2
              · injection heq with e1 e2
                subst e1
                subst e2
                exact ⟨c :: t, rem, hm⟩
              · exact ih rem g1 g2 h2
          | none =>
              rw [hm] at h
              exact ih t g1 g2 h



lemma procCaps_ok (line : String) :
    ∀ (cs : List (List Char × List Char)), (∀ p ∈ cs, (parseF64 p.2).isSome = true) →
      ∀ d, ∃ d2, procCaps line cs d = .ok d2 := by
  intro cs
  induction cs with
  | nil => intro _ d; exact ⟨d, rfl⟩
  | cons c rest ih =>
      intro h d
      obtain ⟨g1, g2⟩ := c
      by_cases hc : (containsSub line "KE" || containsSub line "err") = true
      · obtain ⟨d2, hd2⟩ := ih (fun p hp => h p (by simp [hp])) d
        exact ⟨d2, by simp only [procCaps, if_pos hc]; exact hd2⟩
      · have hp := h (g1, g2) (by simp)
        obtain ⟨v, hv⟩ := Option.isSome_iff_exists.mp hp
        obtain ⟨d2, hd2⟩ :=
          ih (fun p hp2 => h p (by simp [hp2])) (btInsert (String.mk (trimChars g1)) v d)
        exact ⟨d2, by simp only [procCaps, if_neg hc, hv]; exact hd2⟩

lemma extractGo_ok :
    ∀ (lines : List String),
      (∀ l ∈ lines, ∀ p ∈ caps (String.data l), (parseF64 p.2).isSome = true) →
      ∀ d, ∃ d2, extractGo lines d = .ok d2 := by
  intro lines
  induction lines with
  | nil => intro _ d; exact ⟨d, rfl⟩
  | cons a t ih =>
      intro h d
      obtain ⟨d2, hd2⟩ := procCaps_ok a (caps a.data) (h a (by simp)) d
      obtain ⟨d3, hd3⟩ := ih (fun l hl => h l (by simp [hl])) d2
      exact ⟨d3, by simp only [extractGo, hd2]; exact hd3⟩

lemma btInsert_vals (k : String) (v : Dec) :
    ∀ d : Data, (∀ e ∈ d, e.2 ≠ ([] : List Dec)) →
      ∀ e ∈ btInsert k v d, e.2 ≠ ([] : List Dec) := by
  intro d
  induction d with
  | nil =>
      intro _ e he
      simp only [btInsert, List.mem_singleton] at he
      subst he
      simp
  | cons c rest ih =>
      intro h e he
      obtain ⟨k2, vs⟩ := c
      by_cases h1 : k = k2
      · simp only [btInsert, if_pos h1] at he
        rcases List.mem_cons.mp he with rfl | h2
        · simp
        · exact h e (by simp [h2])
      · by_cases h2 : k.data < k2.data
        · simp only [btInsert, if_neg h1, if_pos h2] at he
          rcases List.mem_cons.mp he with rfl | h3
          · simp
          · exact h e h3
        · simp only [btInsert, if_neg h1, if_neg h2] at he
          rcases List.mem_cons.mp he with rfl | h3
          · exact h (k2, vs) (by simp)
          · exact ih (fun e2 he2 => h e2 (by simp [he2])) e h3

lemma procCaps_vals (line : String) :
    ∀ (cs : List (List Char × List Char)) (d m : Data), procCaps line cs d = .ok m →
      (∀ e ∈ d, e.2 ≠ ([] : List Dec)) → ∀ e ∈ m, e.2 ≠ ([] : List Dec) := by
  intro cs
  induction cs with
  | nil =>
      intro d m h hd
      simp only [procCaps, Except.ok.injEq] at h
      subst h
      exact hd
  | cons c rest ih =>
      intro d m h hd
      obtain ⟨g1, g2⟩ := c
      by_cases hc : (containsSub line "KE" || containsSub line "err") = true
      · exact ih d m (by simpa only [procCaps, if_pos hc] using h) hd
      · cases hp : parseF64 g2 with
        | none =>
            simp only [procCaps, if_neg hc, hp] at h
            exact absurd h (by simp)
        | some v =>
            have h2 : procCaps line rest (btInsert (String.mk (trimChars g1)) v d) = .ok m := by
              simpa only [procCaps, if_neg hc, hp] using h
            exact ih _ m h2 (btInsert_vals _ v d hd)

lemma extractGo_vals :
    ∀ (lines : List String) (d m : Data), extractGo lines d = .ok m →
      (∀ e ∈ d, e.2 ≠ ([] : List Dec)) → ∀ e ∈ m, e.2 ≠ ([] : List Dec) := by
  intro lines
  induction lines with
  | nil =>
      intro d m h hd
      simp only [extractGo, Except.ok.injEq] at h
      subst h
      exact hd
  | cons a t ih =>
      intro d m h hd
      cases hpc : procCaps a (caps a.data) d with
      | error e =>
          simp only [extractGo, hpc] at h
          exact absurd h (by simp)
      | ok d2 =>
          simp only [extractGo, hpc] at h
          exact ih d2 m h (procCaps_vals a (caps a.data) d d2 hpc hd)

/-- Claim C10 (corrected): the float-parse error branch is reachable — but
only through non-ASCII Unicode digits, which `\d` matches and Rust float
parsing rejects. Amended: every numeric capture whose digits are ASCII parses
successfully; on input whose captures contain only ASCII digits
`extract_values` never fails; and every key of a returned mapping carries a
non-empty value sequence. -/
theorem claim_C10_thm :
    (∀ (s g1 g2 : List Char), (g1, g2) ∈ caps s →
        (∀ c ∈ g2, isNd c = true → c.isDigit = true) → (parseF64 g2).isSome = true) ∧
    (∀ lines : List String,
        (∀ l ∈ lines, ∀ p ∈ caps (String.data l), ∀ c ∈ p.2, isNd c = true → c.isDigit = true) →
        (extract_values lines).isOk = true) ∧
    (∀ (lines : List String) (m : Data), extract_values lines = .ok m →
        ∀ e ∈ m, e.2 ≠ ([] : List Dec)) := by
  have part1 : ∀ (s g1 g2 : List Char), (g1, g2) ∈ caps s →
      (∀ c ∈ g2, isNd c = true → c.isDigit = true) → (parseF64 g2).isSome = true := by
    intro s g1 g2 hmem hascii
    obtain ⟨s2, rem, hm⟩ := caps_mem_matchAt (s.length + 1) s g1 g2 hmem
    obtain ⟨neg, d1, dot, hg2, hneg, hd1, hd1nd, hdot⟩ := matchAt_shape s2 g1 g2 rem hm
    subst hg2
    apply parseF64_isSome neg d1 dot hneg hd1
    · intro c hc
      exact hascii c (by simp [hc]) (hd1nd c hc)
    · rcases hdot with rfl | ⟨d2, rfl, hnd2⟩
      · exact Or.inl rfl
      · exact Or.inr ⟨d2, rfl, fun c hc => hascii c (by simp [hc]) (hnd2 c hc)⟩
  refine ⟨part1, ?_, ?_⟩
  · intro lines h
    obtain ⟨d2, hd2⟩ := extractGo_ok lines
      (fun l hl p hp => by
        obtain ⟨g1, g2⟩ := p
        exact part1 l.data g1 g2 hp (h l hl (g1, g2) hp)) []
    simp [extract_values, hd2, Except.isOk, Except.toBool]
  · intro lines m h e he
    exact extractGo_vals lines [] m h (by simp) e he

/-- Claim C10 counterexample: on the line "X = ٣" (Arabic-Indic digit three,
in class `\d`) the pattern matches, the capture fails to parse, and
`extract_values` returns the ValueFormatError the claim says is
unreachable. -/
theorem claim_C10_counterexample :
    caps "X = ٣".data = [(['X'], ['٣'])] ∧
    extract_values ["X = ٣"] = .error "ValueFormatError" := ⟨rfl, rfl⟩

theorem claim_C10_witness :
    ((['A'], ['5']) ∈ caps "A = 5".data) ∧
    (parseF64 ['5']).isSome = true ∧
    (extract_values ["A = 5"]).isOk = true ∧
    (∀ e ∈ [("A", [(⟨5, 0⟩ : Dec)])], e.2 ≠ ([] : List Dec)) :=
  ⟨by decide, claim_C10_thm.1 "A = 5".data ['A'] ['5'] (by decide) (by decide),
   claim_C10_thm.2.1 ["A = 5"] (by decide),
   claim_C10_thm.2.2 ["A = 5"] [("A", [⟨5, 0⟩])] rfl⟩


lemma btInsert_keys (k : String) (v : Dec) :
    ∀ (d : Data) (a : String × List Dec), a ∈ btInsert k v d →
      a.1 = k ∨ ∃ b ∈ d, a.1 = b.1 := by
  intro d
  induction d with
  | nil =>
      intro a ha
      simp only [btInsert, List.mem_singleton] at ha
      left
      rw [ha]
  | cons c rest ih =>
      intro a ha
      obtain ⟨k2, vs⟩ := c
      by_cases h1 : k = k2
      · simp only [btInsert, if_pos h1] at ha
        rcases List.mem_cons.mp ha with rfl | h2
        · left; exact h1.symm
        · right; exact ⟨a, by simp [h2], rfl⟩
      · by_cases h2 : k.data < k2.data
        · simp only [btInsert, if_neg h1, if_pos h2] at ha
          rcases List.mem_cons.mp ha with rfl | h3
          · left; rfl
          · right; exact ⟨a, h3, rfl⟩
        · simp only [btInsert, if_neg h1, if_neg h2] at ha
          rcases List.mem_cons.mp ha with rfl | h3
          · right; exact ⟨(k2, vs), by simp, rfl⟩
          · rcases ih a h3 with hk | ⟨b, hb, heq⟩
            · left; exact hk
            · right; exact ⟨b, by simp [hb], heq⟩

lemma btInsert_sorted (k : String) (v : Dec) :
    ∀ d : Data, List.Pairwise (fun a b => a.1.data < b.1.data) d →
      List.Pairwise (fun a b => a.1.data < b.1.data) (btInsert k v d) := by
  intro d
  induction d with
  | nil => intro _; simp [btInsert]
  | cons c rest ih =>
      intro h
      obtain ⟨k2, vs⟩ := c
      rw [List.pairwise_cons] at h
      obtain ⟨hhead, htail⟩ := h
      by_cases h1 : k = k2
      · simp only [btInsert, if_pos h1]
        exact List.pairwise_cons.mpr ⟨hhead, htail⟩
      · by_cases h2 : k.data < k2.data
        · simp only [btInsert, if_neg h1, if_pos h2]
          refine List.pairwise_cons.mpr ⟨?_, List.pairwise_cons.mpr ⟨hhead, htail⟩⟩
          intro a ha
          rcases List.mem_cons.mp ha with rfl | ha2
          · exact h2
          · exact lt_trans h2 (hhead a ha2)
        · simp only [btInsert, if_neg h1, if_neg h2]
          refine List.pairwise_cons.mpr ⟨?_, ih htail⟩
          intro a ha
          rcases btInsert_keys k v rest a ha with hk | ⟨b, hb, heq⟩
          · rw [hk]
            rcases lt_trichotomy k.data k2.data with hlt | heq2 | hgt
            · exact absurd hlt h2
            · exact absurd (String.ext heq2) h1
            · exact hgt
          · rw [heq]
            exact hhead b hb

lemma procCaps_sorted (line : String) :
    ∀ (cs : List (List Char × List Char)) (d m : Data), procCaps line cs d = .ok m →
      List.Pairwise (fun a b => a.1.data < b.1.data) d →
      List.Pairwise (fun a b => a.1.data < b.1.data) m := by
  intro cs
  induction cs with
  | nil =>
      intro d m h hd
      simp only [procCaps, Except.ok.injEq] at h
      subst h
      exact hd
  | cons c rest ih =>
      intro d m h hd
      obtain ⟨g1, g2⟩ := c
      by_cases hc : (containsSub line "KE" || containsSub line "err") = true
      · exact ih d m (by simpa only [procCaps, if_pos hc] using h) hd
      · cases hp : parseF64 g2 with
        | none =>
            simp only [procCaps, if_neg hc, hp] at h
            exact absurd h (by simp)
        | some v =>
            have h2 : procCaps line rest (btInsert (String.mk (trimChars g1)) v d) = .ok m := by
              simpa only [procCaps, if_neg hc, hp] using h
            exact ih _ m h2 (btInsert_sorted _ v d hd)

lemma extractGo_sorted :
    ∀ (lines : List String) (d m : Data), extractGo lines d = .ok m →
      List.Pairwise (fun a b => a.1.data < b.1.data) d →
      List.Pairwise (fun a b => a.1.data < b.1.data) m := by
  intro lines
  induction lines with
  | nil =>
      intro d m h hd
      simp only [extractGo, Except.ok.injEq] at h
      subst h
      exact hd
  | cons a t ih =>
      intro d m h hd
      cases hpc : procCaps a (caps a.data) d with
      | error e =>
          simp only [extractGo, hpc] at h
          exact absurd h (by simp)
      | ok d2 =>
          simp only [extractGo, hpc] at h
          exact ih d2 m h (procCaps_sorted a (caps a.data) d d2 hpc hd)

lemma zipApp_map_getD (H1 : Nat) :
    ∀ (l1 l2 : List (String × List Dec)), l1.length = l2.length →
      (∀ c ∈ l1, c.2.length = H1) →
      (∀ i, i < H1 →
        (List.zipWith (fun c1 c2 => (c1.1, c1.2 ++ c2.2)) l1 l2).map (fun c => c.2.getD i dec0)
          = l1.map (fun c => c.2.getD i dec0)) ∧
      (∀ j,
        (List.zipWith (fun c1 c2 => (c1.1, c1.2 ++ c2.2)) l1 l2).map
            (fun c => c.2.getD (H1 + j) dec0)
          = l2.map (fun c => c.2.getD j dec0)) := by
  intro l1
  induction l1 with
  | nil =>
      intro l2 hlen _
      cases l2 with
      | nil => exact ⟨fun i _ => rfl, fun j => rfl⟩
      | cons b u => simp at hlen
  | cons a t ih =>
      intro l2 hlen hWF
      cases l2 with
      | nil => simp at hlen
      | cons b u =>
          have ha := hWF a (by simp)
          have hrec := ih u (by simpa using hlen) (fun c hc => hWF c (by simp [hc]))
          constructor
          · intro i hi
            simp only [List.zipWith_cons_cons, List.map_cons]
            rw [(hrec.1 i hi)]
            rw [List.getD_append _ _ _ i (by rw [ha]; exact hi)]
          · intro j
            simp only [List.zipWith_cons_cons, List.map_cons]
            rw [hrec.2 j]
            rw [List.getD_append_right _ _ _ _ (by rw [ha]; exact Nat.le_add_right H1 j)]
            rw [ha, Nat.add_sub_cancel_left]

/-- Claim C9 (confirmed): determinism. `extract_values` returns its keys in
strictly increasing (canonical sorted) string order, and vertical stacking of
two same-schema frames concatenates their rows in order (accumulated frame's
rows first, new file's rows after), so the unified table's row order is
file-iteration order then within-file append order. Runs are pure functions
of the input file list, so two runs over unchanged files produce identical
tables and identical CSV bytes. -/
theorem claim_C9_thm :
    (∀ (lines : List String) (m : Data), extract_values lines = .ok m →
        List.Pairwise (fun a b => a.1.data < b.1.data) m) ∧
    (∀ (d1 d2 d : Df), d1.WF → d2.WF → d1.names = d2.names → d1.cols ≠ [] →
        vstack d1 d2 = .ok d → rowsOf d = rowsOf d1 ++ rowsOf d2) := by
  constructor
  · intro lines m h
    exact extractGo_sorted lines [] m h (by simp)
  · intro d1 d2 d h1WF h2WF hnames hne hv
    have hlen : d1.cols.length = d2.cols.length := by
      have := congrArg List.length hnames
      simpa [Df.names] using this
    have hd : d = ⟨List.zipWith (fun c1 c2 => (c1.1, c1.2 ++ c2.2)) d1.cols d2.cols⟩ := by
      simp only [vstack, if_pos hlen, if_pos hnames, Except.ok.injEq] at hv
      exact hv.symm
    subst hd
    obtain ⟨c1, t1, he1⟩ : ∃ c t, d1.cols = c :: t := by
      cases hc : d1.cols with
      | nil => exact absurd hc hne
      | cons c t => exact ⟨c, t, rfl⟩
    obtain ⟨c2, t2, he2⟩ : ∃ c t, d2.cols = c :: t := by
      cases hc : d2.cols with
      | nil => rw [hc] at hlen; rw [he1] at hlen; simp at hlen
      | cons c t => exact ⟨c, t, rfl⟩
    have hh1 : d1.height = c1.2.length := by rw [Df.height, he1]
    have hh2 : d2.height = c2.2.length := by rw [Df.height, he2]
    have hz : (Df.mk (List.zipWith (fun c1 c2 => (c1.1, c1.2 ++ c2.2)) d1.cols d2.cols)).height
        = d1.height + d2.height := by
      rw [Df.height, he1, he2]
      simp only [List.zipWith_cons_cons]
      simp [hh1, hh2]
    have hmap := zipApp_map_getD d1.height d1.cols d2.cols hlen h1WF
    unfold rowsOf
    rw [hz, List.range_add, List.map_append, List.map_map]
    congr 1
    · apply List.map_congr_left
      intro i hi
      have hi2 := List.mem_range.mp hi
      unfold rowAt
      exact hmap.1 i hi2
    · apply List.map_congr_left
      intro j hj
      unfold rowAt
      simp only [Function.comp]
      have h2len : ∀ c ∈ d2.cols, c.2.length = d2.height := h2WF
      exact hmap.2 j


theorem claim_C9_witness :
    extract_values ["B = 2 A = 1"] = .ok [("A", [⟨1, 0⟩]), ("B", [⟨2, 0⟩])] ∧
    List.Pairwise (fun a b => a.1.data < b.1.data)
      ([("A", [(⟨1, 0⟩ : Dec)]), ("B", [⟨2, 0⟩])] : Data) ∧
    rowsOf ⟨[("A", [⟨1, 0⟩, ⟨2, 0⟩])]⟩
      = rowsOf ⟨[("A", [⟨1, 0⟩])]⟩ ++ rowsOf ⟨[("A", [⟨2, 0⟩])]⟩ :=
  ⟨rfl, claim_C9_thm.1 ["B = 2 A = 1"] [("A", [⟨1, 0⟩]), ("B", [⟨2, 0⟩])] rfl,
   claim_C9_thm.2 ⟨[("A", [⟨1, 0⟩])]⟩ ⟨[("A", [⟨2, 0⟩])]⟩ ⟨[("A", [⟨1, 0⟩, ⟨2, 0⟩])]⟩
     (by intro c hc; rw [List.mem_singleton] at hc; subst hc; rfl)
     (by intro c hc; rw [List.mem_singleton] at hc; subst hc; rfl)
     rfl (by decide) rfl⟩

lemma colsFrom_names (rows : List (List Dec)) :
    ∀ (ns : List String) (j : Nat), (colsFrom rows ns j).map Prod.fst = ns := by
  intro ns
  induction ns with
  | nil => intro j; rfl
  | cons n t ih => intro j; simp [colsFrom, ih (j + 1)]

lemma ofRows_names (ns : List String) (rows : List (List Dec)) :
    (ofRows ns rows).names = ns := colsFrom_names rows ns 0

lemma getD_map_getD (j : Nat) :
    ∀ (rows : List (List Dec)) (i : Nat), i < rows.length →
      (rows.map (fun r => r.getD j dec0)).getD i dec0 = (rows.getD i []).getD j dec0 := by
  intro rows
  induction rows with
  | nil => intro i hi; simp at hi
  | cons r u ih =>
      intro i hi
      cases i with
      | zero => simp
      | succ i2 =>
          simp only [List.map_cons, List.getD_cons_succ]
          exact ih i2 (by simpa using hi)

lemma getD_mem2 {α} (d : α) : ∀ (l : List α) (i : Nat), i < l.length → l.getD i d ∈ l := by
  intro l
  induction l with
  | nil => intro i hi; simp at hi
  | cons a u ih =>
      intro i hi
      cases i with
      | zero => simp
      | succ i2 =>
          simp only [List.getD_cons_succ]
          exact List.mem_cons_of_mem a (ih i2 (by simpa using hi))

lemma range_map_getD {α} (d : α) :
    ∀ r : List α, (List.range r.length).map (fun t => r.getD t d) = r := by
  intro r
  induction r with
  | nil => rfl
  | cons a u ih =>
      rw [List.length_cons, List.range_succ_eq_map]
      simp only [List.map_cons, List.getD_cons_zero, List.map_map]
      have hcomp : ((fun t => (a :: u).getD t d) ∘ Nat.succ) = fun t => u.getD t d := by
        funext t
        simp
      rw [hcomp, ih]

lemma colsFrom_map_getD (rows : List (List Dec)) (i : Nat) (hi : i < rows.length) :
    ∀ (ns : List String) (j : Nat),
      (colsFrom rows ns j).map (fun c => c.2.getD i dec0)
        = (List.range ns.length).map (fun t => (rows.getD i []).getD (j + t) dec0) := by
  intro ns
  induction ns with
  | nil => intro j; rfl
  | cons n t ih =>
      intro j
      rw [List.length_cons, List.range_succ_eq_map]
      simp only [colsFrom, List.map_cons, List.map_map]
      rw [getD_map_getD j rows i hi, ih (j + 1)]
      have hcomp : ((fun t => (rows.getD i []).getD (j + t) dec0) ∘ Nat.succ)
          = fun t => (rows.getD i []).getD (j + 1 + t) dec0 := by
        funext t
        have h2 : j + Nat.succ t = j + 1 + t := by omega
        simp [Function.comp, h2]
      rw [hcomp]
      simp

lemma rowsOf_ofRows (ns : List String) (rows : List (List Dec)) (hne : ns ≠ [])
    (hlen : ∀ r ∈ rows, r.length = ns.length) :
    rowsOf (ofRows ns rows) = rows := by
  obtain ⟨n0, nt, rfl⟩ : ∃ a t, ns = a :: t := by
    cases ns with
    | nil => exact absurd rfl hne
    | cons a t => exact ⟨a, t, rfl⟩
  have hh : (ofRows (n0 :: nt) rows).height = rows.length := by
    simp [ofRows, colsFrom, Df.height]
  unfold rowsOf
  rw [hh]
  have hrow : ∀ i ∈ List.range rows.length,
      rowAt (ofRows (n0 :: nt) rows) i = rows.getD i [] := by
    intro i hi
    have hi2 := List.mem_range.mp hi
    unfold rowAt ofRows
    rw [colsFrom_map_getD rows i hi2 (n0 :: nt) 0]
    have hr : (rows.getD i []).length = (n0 :: nt).length :=
      hlen _ (getD_mem2 [] rows i hi2)
    have hz : (fun t => (rows.getD i []).getD (0 + t) dec0)
        = fun t => (rows.getD i []).getD t dec0 := by
      funext t
      rw [Nat.zero_add]
    rw [hz, ← hr]
    exact range_map_getD dec0 (rows.getD i [])
  rw [List.map_congr_left hrow]
  exact range_map_getD [] rows

lemma lookupCol_mem (cols : List (String × List Dec)) :
    ∀ n : String, n ∈ cols.map Prod.fst →
      ∃ vs, lookupCol cols n = some vs ∧ (n, vs) ∈ cols := by
  induction cols with
  | nil => intro n h; simp at h
  | cons c rest ih =>
      intro n h
      by_cases hc : c.1 = n
      · refine ⟨c.2, ?_, ?_⟩
        · unfold lookupCol
          rw [List.find?_cons_of_pos _ (by simp [hc])]
        · obtain ⟨c1, c2⟩ := c
          simp only at hc
          subst hc
          simp
      · have h2 : n ∈ rest.map Prod.fst := by
          rcases List.mem_map.mp h with ⟨b, hb, hbn⟩
          rcases List.mem_cons.mp hb with rfl | hb2
          · exact absurd hbn hc
          · exact List.mem_map.mpr ⟨b, hb2, hbn⟩
        obtain ⟨vs, hl, hm⟩ := ih n h2
        refine ⟨vs, ?_, List.mem_cons_of_mem c hm⟩
        have hstep : lookupCol (c :: rest) n = lookupCol rest n := by
          unfold lookupCol
          rw [List.find?_cons_of_neg _ (by simp [hc])]
        rw [hstep]
        exact hl

lemma selectCols_spec (cols : List (String × List Dec)) (H : Nat)
    (hWF : ∀ c ∈ cols, c.2.length = H) :
    ∀ ns : List String, (∀ n ∈ ns, n ∈ cols.map Prod.fst) →
      ∃ sel, selectCols cols ns = some sel ∧ sel.map Prod.fst = ns ∧
        ∀ c ∈ sel, c.2.length = H := by
  intro ns
  induction ns with
  | nil => intro _; exact ⟨[], rfl, rfl, by simp⟩
  | cons n t ih =>
      intro h
      obtain ⟨vs, hl, hm⟩ := lookupCol_mem cols n (h n (by simp))
      obtain ⟨sel, hs, hnames2, hlen2⟩ := ih (fun x hx => h x (by simp [hx]))
      refine ⟨(n, vs) :: sel, ?_, by simp [hnames2], ?_⟩
      · simp [selectCols, hl, hs]
      · intro c hc
        rcases List.mem_cons.mp hc with rfl | hc2
        · exact hWF (n, vs) hm
        · exact hlen2 c hc2

lemma findIdx_aux (a : String) :
    ∀ (l : List String) (s i : Nat),
      List.findIdx? (fun x => x == a) l s = some i →
      s ≤ i ∧ l.eraseIdx (i - s) = l.erase a := by
  intro l
  induction l with
  | nil => intro s i h; simp [List.findIdx?] at h
  | cons b t ih =>
      intro s i h
      rw [List.findIdx?_cons] at h
      by_cases hb : (b == a) = true
      · rw [if_pos hb] at h
        injection h with h2
        subst h2
        refine ⟨le_refl s, ?_⟩
        rw [Nat.sub_self]
        simp only [List.eraseIdx_zero, List.erase_cons]
        rw [if_pos hb]
        simp
      · rw [if_neg hb] at h
        obtain ⟨hle, herase⟩ := ih (s + 1) i h
        refine ⟨by omega, ?_⟩
        have hstep : i - s = (i - (s + 1)) + 1 := by omega
        rw [hstep]
        simp only [List.eraseIdx_cons_succ, List.erase_cons]
        rw [if_neg hb, herase]

lemma findIdx_erase (a : String) (l : List String) (i : Nat)
    (h : List.findIdx? (fun x => x == a) l = some i) :
    l.eraseIdx i = l.erase a := by
  have h2 := findIdx_aux a l 0 i h
  simpa using h2.2

instance rowLeAtTotal (k : Nat) : IsTotal (List Dec) (rowLeAt k) :=
  ⟨fun a b => le_total ((a.getD k dec0).toRat) ((b.getD k dec0).toRat)⟩

instance rowLeAtTrans (k : Nat) : IsTrans (List Dec) (rowLeAt k) :=
  ⟨fun _ _ _ h1 h2 => le_trans h1 h2⟩

lemma rowsOf_length_mem (df : Df) : ∀ r ∈ rowsOf df, r.length = df.cols.length := by
  intro r hr
  obtain ⟨i, hi, rfl⟩ := List.mem_map.mp hr
  simp [rowAt]



lemma insertionSort_rowLe_filter (k : Nat) (v : ℚ) :
    ∀ rows : List (List Dec),
      (List.insertionSort (rowLeAt k) rows).filter
          (fun r => decide ((r.getD k dec0).toRat = v))
        = rows.filter (fun r => decide ((r.getD k dec0).toRat = v)) := by
  intro rows
  induction rows with
  | nil => rfl
  | cons a t ih =>
      simp only [List.insertionSort]
      rw [List.orderedInsert_eq_take_drop, List.filter_append]
      have hjoin :
          ((List.insertionSort (rowLeAt k) t).takeWhile
              (fun b => decide ¬rowLeAt k a b)).filter
              (fun r => decide ((r.getD k dec0).toRat = v)) ++
            ((List.insertionSort (rowLeAt k) t).dropWhile
              (fun b => decide ¬rowLeAt k a b)).filter
              (fun r => decide ((r.getD k dec0).toRat = v))
          = t.filter (fun r => decide ((r.getD k dec0).toRat = v)) := by
        rw [← List.filter_append, List.takeWhile_append_dropWhile]
        exact ih
      by_cases hv : (a.getD k dec0).toRat = v
      · have hnil :
            ((List.insertionSort (rowLeAt k) t).takeWhile
                (fun b => decide ¬rowLeAt k a b)).filter
                (fun r => decide ((r.getD k dec0).toRat = v)) = [] := by
          rw [List.filter_eq_nil_iff]
          intro b hb
          have h1 := List.mem_takeWhile_imp hb
          simp only [decide_eq_true_eq] at h1
          simp only [decide_eq_true_eq, not_not]
          intro hbv
          exact h1 (le_of_eq (hv.trans hbv.symm))
        rw [hnil] at hjoin
        rw [List.nil_append] at hjoin
        rw [hnil, List.nil_append]
        rw [List.filter_cons, List.filter_cons]
        rw [if_pos (by simpa using hv), if_pos (by simpa using hv)]
        rw [hjoin]
      · rw [List.filter_cons, List.filter_cons]
        rw [if_neg (by simpa using hv), if_neg (by simpa using hv)]
        exact hjoin

/-- Claim C5 (confirmed, with the polars sort modelled as stable per the
spec): on a well-formed frame containing "TIME(PS)" the pipeline moves that
column to the front with the others in their prior relative order, and the
rows of the result are ascending in the TIME(PS) column, a permutation of the
pre-sort (reordered) rows, with equal-key rows in their prior relative order;
without such a column the frame is returned unchanged. -/
theorem claim_C5_thm (df : Df) (hwf : df.WF) :
    ("TIME(PS)" ∉ df.names → reorderSort df = .ok df) ∧
    ("TIME(PS)" ∈ df.names →
      ∃ df2, reorderSort df = .ok df2 ∧
        df2.names = "TIME(PS)" :: df.names.erase "TIME(PS)" ∧
        List.Sorted (rowLeAt 0) (rowsOf df2) ∧
        (rowsOf df2).Perm (rowsOf (selectTime df)) ∧
        (∀ v : ℚ, (rowsOf df2).filter (fun r => decide ((r.getD 0 dec0).toRat = v))
          = (rowsOf (selectTime df)).filter
              (fun r => decide ((r.getD 0 dec0).toRat = v)))) := by
  constructor
  · intro hnotin
    have hnone : df.names.findIdx? (fun x => x == "TIME(PS)") = none := by
      rw [List.findIdx?_eq_none_iff]
      intro x hx
      rcases eq_or_ne x "TIME(PS)" with rfl | hne
      · exact absurd hx hnotin
      · simp [hne]
    simp [reorderSort, hnone]
  · intro hin
    cases hidx : df.names.findIdx? (fun x => x == "TIME(PS)") with
    | none =>
        have := List.findIdx?_eq_none_iff.mp hidx "TIME(PS)" hin
        simp at this
    | some pos =>
        have herase : df.names.eraseIdx pos = df.names.erase "TIME(PS)" :=
          findIdx_erase "TIME(PS)" df.names pos hidx
        have hsub : ∀ n ∈ "TIME(PS)" :: df.names.eraseIdx pos, n ∈ df.cols.map Prod.fst := by
          intro n hn
          rcases List.mem_cons.mp hn with rfl | hn2
          · exact hin
          · exact List.eraseIdx_subset df.names pos hn2
        obtain ⟨sel, hsel, hselnames, hsellen⟩ :=
          selectCols_spec df.cols df.height hwf ("TIME(PS)" :: df.names.eraseIdx pos) hsub
        have hname2 : (Df.mk sel).names = "TIME(PS)" :: df.names.eraseIdx pos := hselnames
        have hfind0 : (Df.mk sel).names.findIdx? (fun x => x == "TIME(PS)") = some 0 := by
          rw [hname2]
          rfl
        have hred : reorderSort df
            = .ok (ofRows (Df.mk sel).names
                (List.insertionSort (rowLeAt 0) (rowsOf (Df.mk sel)))) := by
          simp only [reorderSort, hidx, hsel, sortByName, hfind0]
        have hseltime : selectTime df = Df.mk sel := by
          simp only [selectTime, hidx, hsel]
        have hrowlen : ∀ r ∈ List.insertionSort (rowLeAt 0) (rowsOf (Df.mk sel)),
            r.length = ((Df.mk sel).names).length := by
          intro r hr
          have hr2 := (List.mem_insertionSort (rowLeAt 0)).mp hr
          have := rowsOf_length_mem (Df.mk sel) r hr2
          rw [this, Df.names, List.length_map]
        have hnne : (Df.mk sel).names ≠ [] := by
          rw [hname2]
          exact List.cons_ne_nil _ _
        have hrows : rowsOf (ofRows (Df.mk sel).names
            (List.insertionSort (rowLeAt 0) (rowsOf (Df.mk sel))))
            = List.insertionSort (rowLeAt 0) (rowsOf (Df.mk sel)) :=
          rowsOf_ofRows _ _ hnne hrowlen
        refine ⟨_, hred, ?_, ?_, ?_, ?_⟩
        · rw [ofRows_names, hname2, herase]
        · rw [hrows]
          exact List.sorted_insertionSort (rowLeAt 0) _
        · rw [hrows, hseltime]
          exact List.perm_insertionSort (rowLeAt 0) _
        · intro v
          rw [hrows, hseltime]
          exact insertionSort_rowLe_filter 0 v _


/-- A concrete frame exercising the TIME(PS) reorder-and-sort path. -/
def dfC5 : Df := ⟨[("A", [⟨1, 0⟩, ⟨2, 0⟩]), ("TIME(PS)", [⟨5, 0⟩, ⟨3, 0⟩])]⟩

theorem claim_C5_witness :
    ("TIME(PS)" ∈ dfC5.names) ∧
    (∃ df2, reorderSort dfC5 = .ok df2 ∧
      df2.names = "TIME(PS)" :: dfC5.names.erase "TIME(PS)" ∧
      List.Sorted (rowLeAt 0) (rowsOf df2) ∧
      (rowsOf df2).Perm (rowsOf (selectTime dfC5)) ∧
      (∀ v : ℚ, (rowsOf df2).filter (fun r => decide ((r.getD 0 dec0).toRat = v))
        = (rowsOf (selectTime dfC5)).filter
            (fun r => decide ((r.getD 0 dec0).toRat = v)))) :=
  ⟨by decide,
   (claim_C5_thm dfC5 (by
      intro c hc
      rcases List.mem_cons.mp hc with rfl | hc2
      · rfl
      · rw [List.mem_singleton] at hc2
        subst hc2
        rfl)).2 (by decide)⟩

/-- The spec's Scenario E edge line: the numeric capture on "VAL = 1.2.3" is
"1.2", which parses fine, so that line does not trigger a ValueFormatError
(context for claim C7). -/
lemma parseF64_onetwothree_parses :
    caps "VAL = 1.2.3".data = [(['V', 'A', 'L'], ['1', '.', '2'])] ∧
    extract_values ["VAL = 1.2.3"] = .ok [("VAL", [⟨12, 1⟩])] := ⟨rfl, rfl⟩

end Relis
